import Mathlib

/-!
Shallow embedding of the feature-extraction descriptors of
`functime/feature_extraction/tsfresh.py` and of the dimension-reduction
driver `functime/feature_reduction/time_series_processor.py`.

A polars `Series` of floats is modelled as a `List ℚ`; a null entry is
modelled as `none` in a `List (Option ℚ)` where the pipeline actually
produces nulls.  Operations that raise in Python (index errors, zero
division, `.item()` on a frame that is not 1×1) return `none` / are
modelled with `Option`.
-/

namespace Functime

/-- Arithmetic mean of a series, `x.mean()`: sum divided by length
(division by zero yields the junk value 0 where polars would yield null). -/
def mean (x : List ℚ) : ℚ := x.sum / x.length

/-- Population variance `x.var(ddof=0)`. -/
def popVar (x : List ℚ) : ℚ :=
  ((x.map (fun v => (v - mean x) ^ 2)).sum) / x.length

/-- Sample variance `x.var()` (polars default `ddof=1`). -/
def sampleVar (x : List ℚ) : ℚ :=
  ((x.map (fun v => (v - mean x) ^ 2)).sum) / ((x.length : ℚ) - 1)

/-- Sample covariance `pl.cov(x, y)` (default `ddof=1`). -/
def sampleCov (x y : List ℚ) : ℚ :=
  ((List.zipWith (fun a b => (a - mean x) * (b - mean y)) x y).sum)
    / ((x.length : ℚ) - 1)

/-- Dot product of two series, `a.dot(b)`. -/
def dot (a b : List ℚ) : ℚ := (List.zipWith (· * ·) a b).sum

/-- `x.value_counts()`: one row per distinct value with its number of
occurrences (first column the value, second column `counts`). -/
def value_counts (x : List ℚ) : List (ℚ × ℕ) :=
  x.dedup.map (fun v => (v, x.count v))

/-- `sum_reocurring_points`: filters `value_counts` to rows with
`counts > 1`, then dots the first column (`counts.columns[0]`, the
distinct values) with itself. -/
def sum_reocurring_points (x : List ℚ) : ℚ :=
  let counts := (value_counts x).filter (fun p => 1 < p.2)
  dot (counts.map Prod.fst) (counts.map Prod.fst)

/-- `sum_reocurring_values`: sums each column of the filtered
`value_counts` frame (giving one row with two entries) and calls `.item()`,
which requires a 1×1 frame and raises (`none`) otherwise. -/
def sum_reocurring_values (x : List ℚ) : Option ℚ :=
  let X := (value_counts x).filter (fun p => 1 < p.2)
  let summed : List ℚ := [(X.map Prod.fst).sum, (X.map (fun p => (p.2 : ℚ))).sum]
  if summed.length = 1 then summed.head? else none

/-- `mean_second_derivative_central`:
`(x[-1] - x[-2] - x[1] + x[0]) / (2 * (len(x) - 2))`, unguarded.
Indexing `x[1]` / `x[-2]` raises for `len(x) < 2` and the division raises
`ZeroDivisionError` for `len(x) = 2`; both are modelled as `none`. -/
def mean_second_derivative_central (x : List ℚ) : Option ℚ :=
  if x.length < 2 then none
  else if x.length = 2 then none
  else some ((x.getD (x.length - 1) 0 - x.getD (x.length - 2) 0
              - x.getD 1 0 + x.getD 0 0) / (2 * ((x.length : ℚ) - 2)))

/-- `autocorr(x, lag)`: `None` for negative lag, the literal `1.0` for
lag 0, and otherwise the dot of the mean-centred left-shifted and
right-shifted series divided by `(count - lag) * var(ddof=0)`. -/
def autocorr (x : List ℚ) (lag : ℤ) : Option ℚ :=
  if lag < 0 then none
  else if lag = 0 then some 1
  else
    let l := lag.toNat
    let m := mean x
    some (dot ((x.drop l).map (fun v => v - m))
              ((x.take (x.length - l)).map (fun v => v - m))
          / (((x.length : ℚ) - (lag : ℚ)) * popVar x))

/-- `_get_length_sequences_where`: run lengths of the maximal runs of
`true` in a boolean series, in order (the cumulative-sum mask groups
consecutive equal entries; the `filter(orig == 1)` keeps the true runs).
The accumulator carries the length of the current open run of trues. -/
def runLengthsAux : List Bool → ℕ → List ℕ
  | [], 0 => []
  | [], n + 1 => [n + 1]
  | true :: rest, n => runLengthsAux rest (n + 1)
  | false :: rest, 0 => runLengthsAux rest 0
  | false :: rest, n + 1 => (n + 1) :: runLengthsAux rest 0

/-- The groupby pipeline of `_get_length_sequences_where`: ordered run
lengths of consecutive `true` entries; empty when no `true` is present. -/
def _get_length_sequences_where (x : List Bool) : List ℕ :=
  runLengthsAux x 0

/-- `linear_trend`: as the code computes it, with
`x_range = int_range(1, len+1)`, `beta = pl.cov(x, x_range) / x.var()`,
`alpha = x.mean() - beta * x_range.mean()`,
`resid = x - beta * x_range + alpha` and `rss = resid.pow(2).sum()`.
Returns `(slope, intercept, rss)`. -/
def linear_trend (x : List ℚ) : ℚ × ℚ × ℚ :=
  let x_range : List ℚ := (List.range x.length).map (fun i => (i : ℚ) + 1)
  let beta := sampleCov x x_range / sampleVar x
  let alpha := mean x - beta * mean x_range
  let resid := List.zipWith (fun xi i => xi - beta * i + alpha) x x_range
  (beta, alpha, (resid.map (fun r => r ^ 2)).sum)

/-- The slope the claim states for `linear_trend`: the ordinary
least-squares slope `cov(index, x) / var(index)` for index `1..n`. -/
def claimed_ols_slope (x : List ℚ) : ℚ :=
  let x_range : List ℚ := (List.range x.length).map (fun i => (i : ℚ) + 1)
  sampleCov x_range x / sampleVar x_range

/-- Ascending insertion of a value into a sorted list. -/
def insertAsc (v : ℚ) : List ℚ → List ℚ
  | [] => [v]
  | w :: rest => if v ≤ w then v :: w :: rest else w :: insertAsc v rest

/-- Ascending sort of a series (models polars `sort`). -/
def sortAsc : List ℚ → List ℚ
  | [] => []
  | v :: rest => insertAsc v (sortAsc rest)

/-- `quantile(q, interpolation="linear")` over the non-null entries of a
series: `null` on an empty series, otherwise the order statistic at rank
`h = q * (n - 1)`, interpolating linearly between the two neighbouring
sorted values (indices clamped to the valid range). -/
def quantileLinear (vals : List ℚ) (q : ℚ) : Option ℚ :=
  match vals with
  | [] => none
  | _ :: _ =>
    let s := sortAsc vals
    let n := vals.length
    let h := q * ((n : ℚ) - 1)
    let i : ℕ := (min (max ⌊h⌋ 0) ((n : ℤ) - 1)).toNat
    let j : ℕ := min (i + 1) (n - 1)
    some (s.getD i 0 + (h - (i : ℚ)) * (s.getD j 0 - s.getD i 0))

/-- `x.diff()` with the default null behaviour: same length as `x`, the
first slot null, then `x[i] - x[i-1]`. -/
def diffSeries (x : List ℚ) : List (Option ℚ) :=
  match x with
  | [] => []
  | _ :: rest => none :: List.zipWith (fun a b => some (a - b)) rest x

/-- Kleene three-valued `and` of polars boolean columns: false dominates,
otherwise null propagates. -/
def kleeneAnd : Option Bool → Option Bool → Option Bool
  | some false, _ => some false
  | _, some false => some false
  | some true, some true => some true
  | _, _ => none

/-- The corridor filter inside `change_quantiles`: given the (possibly
absolute) difference series and the two corridor quantiles (null when the
series has no non-null entry), build the `is_between(lo, hi)` mask, shift
it by one filling with `false` (`shift_and_fill`), conjoin with Kleene
logic, and keep the entries whose combined condition is true (`filter`
drops null conditions). -/
def corridorFilter (d : List (Option ℚ)) : Option ℚ → Option ℚ → List ℚ
  | some lo, some hi =>
    let mask := d.map (Option.map (fun v => decide (lo ≤ v ∧ v ≤ hi)))
    (List.zipWith (fun o c => if c = some true then o else none) d
      (List.zipWith kleeneAnd mask (some false :: mask.dropLast))).filterMap id
  | _, _ => []

/-- `change_quantiles` exactly as the code computes it: diff the series,
optionally take absolute values, then apply the corridor filter built from
the `ql`/`qh` linear-interpolation quantiles of the non-null diff values,
and return the *filtered difference series* — the averaging step the
docstring describes is absent from the code. -/
def change_quantiles (x : List ℚ) (ql qh : ℚ) (is_abs : Bool) : List ℚ :=
  let d := if is_abs then (diffSeries x).map (Option.map (fun v => |v|))
           else diffSeries x
  corridorFilter d (quantileLinear (d.filterMap id) ql)
    (quantileLinear (d.filterMap id) qh)

/-- `x.median()`: middle order statistic of the sorted series, averaging
the two middle values when the length is even (junk value 0 on the empty
series, where polars yields null). -/
def median (x : List ℚ) : ℚ :=
  if x.length % 2 = 1 then (sortAsc x).getD (x.length / 2) 0
  else ((sortAsc x).getD (x.length / 2 - 1) 0 + (sortAsc x).getD (x.length / 2) 0) / 2

/-- `x.max()` (junk value 0 on the empty series). -/
def seriesMax (x : List ℚ) : ℚ :=
  match x with
  | [] => 0
  | v :: rest => rest.foldl max v

/-- `x.min()` (junk value 0 on the empty series). -/
def seriesMin (x : List ℚ) : ℚ :=
  match x with
  | [] => 0
  | v :: rest => rest.foldl min v

/-- `symmetry_looking`:
`abs(x.mean() - x.median()) < r["r"] * (x.max() - x.min())`; the
multiplier parameter is the value the source reads from the mapping `r`
under the key `"r"`. -/
def symmetry_looking (x : List ℚ) (r : ℚ) : Bool :=
  decide (|mean x - median x| < r * (seriesMax x - seriesMin x))

/-- `var_greater_than_std`: `y > y.sqrt()` with `y = x.var(ddof=0)`. -/
def var_greater_than_std (x : List ℚ) : Prop :=
  ((popVar x : ℚ) : ℝ) > Real.sqrt ((popVar x : ℚ) : ℝ)

/-- `count_below`: `x.filter(x <= t).count().truediv(x.count()).mul(100)`. -/
def count_below (x : List ℚ) (t : ℚ) : ℚ :=
  ((x.filter (fun v => decide (v ≤ t))).length : ℚ) / (x.length : ℚ) * 100

/-- `count_above`: `x.filter(x >= t).count().truediv(x.count()).mul(100)`. -/
def count_above (x : List ℚ) (t : ℚ) : ℚ :=
  ((x.filter (fun v => decide (t ≤ v))).length : ℚ) / (x.length : ℚ) * 100

/-- `longest_strike_below_mean`: the max of the run lengths of
`x < x.mean()`, or 0 when there is no run (`lengths.max() if
lengths.len() > 0 else 0`). -/
def longest_strike_below_mean (x : List ℚ) : ℕ :=
  if 0 < (_get_length_sequences_where (x.map (fun v => decide (v < mean x)))).length
  then (_get_length_sequences_where (x.map (fun v => decide (v < mean x)))).foldr max 0
  else 0

/-- `longest_strike_above_mean`: the max of the run lengths of
`x > x.mean()`, or 0 when there is no run. -/
def longest_strike_above_mean (x : List ℚ) : ℕ :=
  if 0 < (_get_length_sequences_where (x.map (fun v => decide (mean x < v)))).length
  then (_get_length_sequences_where (x.map (fun v => decide (mean x < v)))).foldr max 0
  else 0

/-- Number of rows of a feature matrix. -/
def numRows (m : List (List ℚ)) : ℕ := m.length

/-- Number of columns of a feature matrix (of its first row). -/
def numCols (m : List (List ℚ)) : ℕ := (m.headD []).length

/-- Modelled from the spec: the `FeatureCalculator` and `DimensionReducer`
of `functime/feature_reduction/_feat_calculator.py` and `_dim_reducer.py`
are not among the sources; per the spec, `calculate_features` is a
deterministic pure function from a panel to a feature matrix whose first
column is the entity identifier, `fit_pca` produces fitted projection
state from a feature matrix and a target dimension, and `transformState`
applies a fitted state to a matrix.  The model abstracts them as arbitrary
functions of exactly these signatures. -/
structure ReducerModel (State : Type) where
  calculate_features : List (List ℚ) → List (List ℚ)
  fit_pca : List (List ℚ) → ℕ → State
  transformState : State → List (List ℚ) → List (List ℚ)

/-- `select(pl.exclude(id))`: drop the entity-identifier column (the
first column) from a feature matrix. -/
def dropIdColumn (m : List (List ℚ)) : List (List ℚ) := m.map (List.drop 1)

/-- `features_dim_reduction.fit` (PCA branch): compute the feature matrix
(stored by the calculator for later `X_reduced` calls), drop the id
column, and fit the PCA state. -/
def fit {State : Type} (m : ReducerModel State) (X : List (List ℚ)) (dim : ℕ) :
    List (List ℚ) × State :=
  let feats := m.calculate_features X
  (feats, m.fit_pca (dropIdColumn feats) dim)

/-- `features_dim_reduction.X_reduced`: transform the stored feature
matrix, minus its first (id) column, with the fitted state. -/
def X_reduced {State : Type} (m : ReducerModel State)
    (s : List (List ℚ) × State) : List (List ℚ) :=
  m.transformState s.2 (dropIdColumn s.1)

/-- `features_dim_reduction.fit_transform` (PCA branch): compute features,
drop the id column, fit, and immediately transform the same matrix. -/
def fit_transform {State : Type} (m : ReducerModel State)
    (X : List (List ℚ)) (dim : ℕ) : List (List ℚ) :=
  let feats := dropIdColumn (m.calculate_features X)
  m.transformState (m.fit_pca feats dim) feats

/-- A concrete `ReducerModel` instance used by the C9 witness. -/
def demoModel : ReducerModel (List (List ℚ)) where
  calculate_features := fun X => X
  fit_pca := fun M dim => M.map (List.take dim)
  transformState := fun s M => s ++ M

end Functime

namespace Functime

/-- C1. The scenario `x = [2,2,2,2,1]`: the code's `sum_reocurring_points`
dots the distinct repeated values with themselves and returns `2*2 = 4`
(the docstring promises `8`), and `sum_reocurring_values` raises because
`.item()` is applied to a 1×2 frame (the docstring promises `2`). -/
theorem C1_sum_reocurring_scenario :
    sum_reocurring_points [2, 2, 2, 2, 1] = 4 ∧
      sum_reocurring_points [2, 2, 2, 2, 1] ≠ 8 ∧
      sum_reocurring_values [2, 2, 2, 2, 1] = none := by
  have h1 : sum_reocurring_points [2, 2, 2, 2, 1] = 4 := by
    norm_num [sum_reocurring_points, value_counts, dot, List.dedup, List.count,
      List.countP, List.countP.go, Bool.cond_eq_ite, beq_iff_eq]
  have h2 : sum_reocurring_values [2, 2, 2, 2, 1] = none := by
    norm_num [sum_reocurring_values, value_counts, List.dedup, List.count,
      List.countP, List.countP.go, Bool.cond_eq_ite, beq_iff_eq]
  exact ⟨h1, by rw [h1]; norm_num, h2⟩

/-- C4. `mean_second_derivative_central` matches the claimed formula for
`n > 2` (here `[1,2,4,8]` gives `(8-4-2+1)/(2*(4-2)) = 3/4`) but is not
guarded for `n ≤ 2`: at `[0,1]` the denominator `2*(n-2)` is zero and the
call raises instead of producing a defined result. -/
theorem C4_mean_second_derivative_guard :
    mean_second_derivative_central [0, 1] = none ∧
      mean_second_derivative_central [1, 2, 4, 8] = some (3 / 4) := by
  constructor
  · norm_num [mean_second_derivative_central]
  · norm_num [mean_second_derivative_central, List.getD]

/-- C2. At `x = [0,0,3]` the slope returned by `linear_trend` is
`pl.cov(x, index) / x.var() = (3/2) / 3 = 1/2`, while the ordinary
least-squares slope the claim states, `cov(index, x) / var(index)`,
is `(3/2) / 1 = 3/2`: the code divides by the variance of `x` instead of
the variance of the index. -/
theorem C2_linear_trend_slope :
    (linear_trend [0, 0, 3]).1 = 1 / 2 ∧
      claimed_ols_slope [0, 0, 3] = 3 / 2 ∧
      (linear_trend [0, 0, 3]).1 ≠ claimed_ols_slope [0, 0, 3] := by
  have hr : List.range 3 = [0, 1, 2] := rfl
  have h1 : (linear_trend [0, 0, 3]).1 = 1 / 2 := by
    norm_num [linear_trend, sampleCov, sampleVar, mean, hr]
  have h2 : claimed_ols_slope [0, 0, 3] = 3 / 2 := by
    norm_num [claimed_ols_slope, sampleCov, sampleVar, mean, hr]
  exact ⟨h1, h2, by rw [h1, h2]; norm_num⟩

/-- C3. At `x = [0,1,2,3,0]`, `ql = 0`, `qh = 1`, `is_abs = true`, the
code returns the filtered absolute difference series `[1, 1, 3]` (three
elements), not the single scalar average `5/3` that the claim (and the
function docstring) describe. -/
theorem C3_change_quantiles_returns_series :
    change_quantiles [0, 1, 2, 3, 0] 0 1 true = [1, 1, 3] ∧
      (change_quantiles [0, 1, 2, 3, 0] 0 1 true).length ≠ 1 := by
  have h : change_quantiles [0, 1, 2, 3, 0] 0 1 true = [1, 1, 3] := by
    have hq0 : quantileLinear [1, 1, 1, 3] 0 = some 1 := by
      norm_num [quantileLinear, sortAsc, insertAsc, List.getD,
        (show ((3:ℤ)).toNat = 3 from rfl), (show ((0:ℤ)).toNat = 0 from rfl)]
    have hq1 : quantileLinear [1, 1, 1, 3] 1 = some 3 := by
      norm_num [quantileLinear, sortAsc, insertAsc, List.getD,
        (show ((3:ℤ)).toNat = 3 from rfl), (show ((0:ℤ)).toNat = 0 from rfl)]
    have hd : (diffSeries [0, 1, 2, 3, 0]).map (Option.map (fun v => |v|)) =
        [none, some 1, some 1, some 1, some 3] := by
      norm_num [diffSeries]
    unfold change_quantiles
    rw [if_pos rfl, hd]
    have hv : List.filterMap id [none, some (1:ℚ), some 1, some 1, some 3] =
        [1, 1, 1, 3] := by simp
    simp only [hv, hq0, hq1]
    norm_num [corridorFilter, kleeneAnd]
    simp
  exact ⟨h, by rw [h]; norm_num⟩

/-- C6. For every series `x`, `autocorr(x, 0)` is exactly `1.0`, and for
every negative lag `autocorr(x, lag)` is `None` (missing), not a number. -/
theorem C6_autocorr_lag_zero_and_negative (x : List ℚ) (lag : ℤ) :
    autocorr x 0 = some 1 ∧ (lag < 0 → autocorr x lag = none) := by
  constructor
  · simp [autocorr]
  · intro h
    simp [autocorr, h]

/-- C6 witness: the theorem instantiated at `x = [1,2]`, `lag = -1`. -/
theorem C6_autocorr_witness :
    (-1 : ℤ) < 0 ∧ autocorr [1, 2] (-1) = none ∧ autocorr [1, 2] 0 = some 1 :=
  ⟨by decide, (C6_autocorr_lag_zero_and_negative [1, 2] (-1)).2 (by decide),
    (C6_autocorr_lag_zero_and_negative [1, 2] (-1)).1⟩

/-- C7. For a boolean series containing no `true`, the groupby pipeline of
`_get_length_sequences_where` produces an empty series, not the
one-element series `[0]` its docstring (and the claim) promise. -/
theorem C7_run_lengths_no_true :
    _get_length_sequences_where [false, false] = [] ∧
      _get_length_sequences_where [false, false] ≠ [0] := by
  refine ⟨by decide, by decide⟩

theorem sum_const (x : List ℚ) (c : ℚ) (hc : ∀ v ∈ x, v = c) :
    x.sum = x.length * c := by
  induction x with
  | nil => simp
  | cons a rest ih =>
    have ha : a = c := hc a (List.mem_cons_self a rest)
    have hr := ih (fun v hv => hc v (List.mem_cons_of_mem a hv))
    simp [ha, hr]
    ring

theorem mean_const (x : List ℚ) (c : ℚ) (hne : x ≠ [])
    (hc : ∀ v ∈ x, v = c) : mean x = c := by
  have hpos : 0 < x.length := List.length_pos.mpr hne
  have hn : (x.length : ℚ) ≠ 0 := Nat.cast_ne_zero.mpr hpos.ne'
  rw [mean, sum_const x c hc, mul_div_assoc, mul_comm]
  field_simp

theorem popVar_const (x : List ℚ) (c : ℚ) (hne : x ≠ [])
    (hc : ∀ v ∈ x, v = c) : popVar x = 0 := by
  have hm := mean_const x c hne hc
  have hz : (x.map (fun v => (v - mean x) ^ 2)).sum = 0 := by
    apply List.sum_eq_zero
    intro y hy
    rcases List.mem_map.mp hy with ⟨v, hv, rfl⟩
    rw [hc v hv, hm]
    ring
  rw [popVar, hz, zero_div]

theorem mem_insertAsc (v a : ℚ) (l : List ℚ) :
    a ∈ insertAsc v l ↔ a = v ∨ a ∈ l := by
  induction l with
  | nil => simp [insertAsc]
  | cons w rest ih =>
    by_cases h : v ≤ w
    · rw [insertAsc, if_pos h]
      simp [List.mem_cons]
    · rw [insertAsc, if_neg h]
      simp only [List.mem_cons, ih]
      tauto

theorem length_insertAsc (v : ℚ) (l : List ℚ) :
    (insertAsc v l).length = l.length + 1 := by
  induction l with
  | nil => rfl
  | cons w rest ih =>
    by_cases h : v ≤ w
    · simp [insertAsc, h]
    · simp [insertAsc, h, ih]

theorem mem_sortAsc (a : ℚ) (l : List ℚ) : a ∈ sortAsc l ↔ a ∈ l := by
  induction l with
  | nil => simp [sortAsc]
  | cons w rest ih =>
    simp [sortAsc, mem_insertAsc, ih]

theorem length_sortAsc (l : List ℚ) : (sortAsc l).length = l.length := by
  induction l with
  | nil => rfl
  | cons w rest ih => simp [sortAsc, length_insertAsc, ih]

theorem getD_const (l : List ℚ) (c : ℚ) :
    (∀ v ∈ l, v = c) → ∀ i, i < l.length → l.getD i 0 = c := by
  induction l with
  | nil => intro _ i hi; simp at hi
  | cons w rest ih =>
    intro hc i hi
    cases i with
    | zero => exact hc w (List.mem_cons_self w rest)
    | succ k =>
      have h := ih (fun v hv => hc v (List.mem_cons_of_mem w hv)) k
        (Nat.lt_of_succ_lt_succ hi)
      simpa using h

theorem median_const (x : List ℚ) (c : ℚ) (hne : x ≠ [])
    (hc : ∀ v ∈ x, v = c) : median x = c := by
  have hlen : (sortAsc x).length = x.length := length_sortAsc x
  have hcs : ∀ v ∈ sortAsc x, v = c := fun v hv =>
    hc v ((mem_sortAsc v x).mp hv)
  have hpos : 0 < x.length := List.length_pos.mpr hne
  have hhalf : x.length / 2 < (sortAsc x).length := by
    rw [hlen]
    exact Nat.div_lt_self hpos (by norm_num)
  have h1 : x.length / 2 - 1 < (sortAsc x).length :=
    lt_of_le_of_lt (Nat.sub_le _ 1) hhalf
  rw [median]
  split
  · exact getD_const _ c hcs _ hhalf
  · rw [getD_const _ c hcs _ h1, getD_const _ c hcs _ hhalf]
    ring

theorem foldl_max_const (l : List ℚ) (c : ℚ) (hc : ∀ v ∈ l, v = c) :
    l.foldl max c = c := by
  induction l with
  | nil => rfl
  | cons w rest ih =>
    have hw : w = c := hc w (List.mem_cons_self w rest)
    simp only [List.foldl_cons, hw, max_self]
    exact ih (fun v hv => hc v (List.mem_cons_of_mem w hv))

theorem foldl_min_const (l : List ℚ) (c : ℚ) (hc : ∀ v ∈ l, v = c) :
    l.foldl min c = c := by
  induction l with
  | nil => rfl
  | cons w rest ih =>
    have hw : w = c := hc w (List.mem_cons_self w rest)
    simp only [List.foldl_cons, hw, min_self]
    exact ih (fun v hv => hc v (List.mem_cons_of_mem w hv))

theorem seriesMax_const (x : List ℚ) (c : ℚ) (hne : x ≠ [])
    (hc : ∀ v ∈ x, v = c) : seriesMax x = c := by
  match x, hne with
  | v :: rest, _ =>
    have hv : v = c := hc v (List.mem_cons_self v rest)
    rw [seriesMax, hv]
    exact foldl_max_const rest c (fun w hw => hc w (List.mem_cons_of_mem v hw))

theorem seriesMin_const (x : List ℚ) (c : ℚ) (hne : x ≠ [])
    (hc : ∀ v ∈ x, v = c) : seriesMin x = c := by
  match x, hne with
  | v :: rest, _ =>
    have hv : v = c := hc v (List.mem_cons_self v rest)
    rw [seriesMin, hv]
    exact foldl_min_const rest c (fun w hw => hc w (List.mem_cons_of_mem v hw))

/-- C5 counterexample: on the constant series `[5, 5]` with `r = 1 ≥ 0`,
`symmetry_looking` is `false` — the strict comparison `|mean - median| <
r * (max - min)` degenerates to `0 < 0` — contradicting the claim that it
is true on every constant series for every `r ≥ 0`. -/
theorem C5_symmetry_constant_counterexample :
    symmetry_looking [5, 5] 1 = false := by
  norm_num [symmetry_looking, mean, median, sortAsc, insertAsc, seriesMax,
    seriesMin, List.getD]

/-- C5 amended: for every non-empty constant series,
`var_greater_than_std` is false (variance 0 is not greater than its square
root 0), and `symmetry_looking(x, r)` is likewise **false** for every
`r ≥ 0`, because `|mean - median| < r * (max - min)` is the strict
comparison `0 < 0`. -/
theorem C5_constant_descriptors (x : List ℚ) (c r : ℚ) (hne : x ≠ [])
    (hc : ∀ v ∈ x, v = c) (hr : 0 ≤ r) :
    ¬ var_greater_than_std x ∧ symmetry_looking x r = false := by
  constructor
  · rw [var_greater_than_std, popVar_const x c hne hc]
    push_cast
    rw [Real.sqrt_zero]
    exact lt_irrefl 0
  · rw [symmetry_looking, mean_const x c hne hc, median_const x c hne hc,
      seriesMax_const x c hne hc, seriesMin_const x c hne hc]
    simp [sub_self]

/-- C5 witness for the amended claim: the constant series `[5, 5]` with
`r = 1`. -/
theorem C5_constant_witness :
    ([5, 5] : List ℚ) ≠ [] ∧ (0 : ℚ) ≤ 1 ∧
      ¬ var_greater_than_std [5, 5] ∧ symmetry_looking [5, 5] 1 = false :=
  ⟨by decide, by norm_num,
    (C5_constant_descriptors [5, 5] 5 1 (by decide) (by decide) (by norm_num)).1,
    (C5_constant_descriptors [5, 5] 5 1 (by decide) (by decide) (by norm_num)).2⟩

theorem runLengthsAux_le (l : List Bool) :
    ∀ acc y, y ∈ runLengthsAux l acc → y ≤ acc + l.count true := by
  induction l with
  | nil =>
    intro acc y hy
    cases acc with
    | zero => simp [runLengthsAux] at hy
    | succ n =>
      simp only [runLengthsAux, List.mem_singleton] at hy
      simp [hy]
  | cons b rest ih =>
    intro acc y hy
    cases b with
    | true =>
      have h := ih (acc + 1) y hy
      have hc : (true :: rest).count true = rest.count true + 1 := by
        simp [List.count_cons]
      omega
    | false =>
      have hc : (false :: rest).count true = rest.count true := by
        simp [List.count_cons]
      cases acc with
      | zero =>
        have h := ih 0 y hy
        omega
      | succ n =>
        simp only [runLengthsAux, List.mem_cons] at hy
        rcases hy with rfl | hy
        · omega
        · have h := ih 0 y hy
          omega

theorem foldr_max_le (l : List ℕ) (B : ℕ) (h : ∀ y ∈ l, y ≤ B) :
    l.foldr max 0 ≤ B := by
  induction l with
  | nil => simpa using Nat.zero_le B
  | cons a rest ih =>
    simp only [List.foldr_cons]
    exact max_le (h a (List.mem_cons_self a rest))
      (ih (fun y hy => h y (List.mem_cons_of_mem a hy)))

theorem strike_le_count (m : List Bool) :
    (if 0 < (_get_length_sequences_where m).length
     then (_get_length_sequences_where m).foldr max 0 else 0) ≤ m.count true := by
  split
  · exact foldr_max_le _ _ (fun y hy => by
      simpa using runLengthsAux_le m 0 y hy)
  · exact Nat.zero_le _

theorem count_true_map (x : List ℚ) (p : ℚ → Bool) :
    (x.map p).count true = x.countP p := by
  induction x with
  | nil => rfl
  | cons a rest ih =>
    cases hp : p a <;> simp [List.count_cons, List.countP_cons, hp, ih]

theorem countP_disjoint_le (x : List ℚ) (p q : ℚ → Bool)
    (h : ∀ v ∈ x, ¬(p v = true ∧ q v = true)) :
    x.countP p + x.countP q ≤ x.length := by
  induction x with
  | nil => simp
  | cons a rest ih =>
    have ha := h a (List.mem_cons_self a rest)
    have hr := ih (fun v hv => h v (List.mem_cons_of_mem a hv))
    simp only [List.countP_cons, List.length_cons]
    cases hp : p a with
    | false =>
      cases hq : q a <;> simp [hp, hq] <;> omega
    | true =>
      cases hq : q a with
      | false => simp [hp, hq]; omega
      | true => exact absurd ⟨hp, hq⟩ ha

theorem runLengthsAux_all_false (l : List Bool) :
    (∀ b ∈ l, b = false) → runLengthsAux l 0 = [] := by
  induction l with
  | nil => intro _; rfl
  | cons b rest ih =>
    intro h
    have hb : b = false := h b (List.mem_cons_self b rest)
    subst hb
    exact ih (fun v hv => h v (List.mem_cons_of_mem false hv))

/-- C8. The longest strike strictly below the mean plus the longest
strike strictly above it never exceeds the series length; no element is
simultaneously below and above the mean (the runs are disjoint); and each
descriptor is 0 when no qualifying element exists. -/
theorem C8_longest_strikes (x : List ℚ) :
    longest_strike_below_mean x + longest_strike_above_mean x ≤ x.length ∧
      (∀ v ∈ x, ¬(v < mean x ∧ mean x < v)) ∧
      ((∀ v ∈ x, ¬ v < mean x) → longest_strike_below_mean x = 0) ∧
      ((∀ v ∈ x, ¬ mean x < v) → longest_strike_above_mean x = 0) := by
  have hb : longest_strike_below_mean x ≤
      x.countP (fun v => decide (v < mean x)) := by
    rw [longest_strike_below_mean,
      ← count_true_map x (fun v => decide (v < mean x))]
    exact strike_le_count _
  have ha : longest_strike_above_mean x ≤
      x.countP (fun v => decide (mean x < v)) := by
    rw [longest_strike_above_mean,
      ← count_true_map x (fun v => decide (mean x < v))]
    exact strike_le_count _
  have hdisj : ∀ v ∈ x,
      ¬(decide (v < mean x) = true ∧ decide (mean x < v) = true) := by
    intro v _ hcontra
    exact lt_asymm (of_decide_eq_true hcontra.1) (of_decide_eq_true hcontra.2)
  have hsum := countP_disjoint_le x _ _ hdisj
  refine ⟨le_trans (Nat.add_le_add hb ha) hsum, ?_, ?_, ?_⟩
  · intro v _ hcontra
    exact lt_asymm hcontra.1 hcontra.2
  · intro h
    have hm : ∀ b ∈ x.map (fun v => decide (v < mean x)), b = false := by
      intro b hb2
      rcases List.mem_map.mp hb2 with ⟨v, hv, rfl⟩
      exact decide_eq_false (h v hv)
    rw [longest_strike_below_mean, _get_length_sequences_where,
      runLengthsAux_all_false _ hm]
    simp
  · intro h
    have hm : ∀ b ∈ x.map (fun v => decide (mean x < v)), b = false := by
      intro b hb2
      rcases List.mem_map.mp hb2 with ⟨v, hv, rfl⟩
      exact decide_eq_false (h v hv)
    rw [longest_strike_above_mean, _get_length_sequences_where,
      runLengthsAux_all_false _ hm]
    simp

/-- C8 witness: on the constant series `[1, 1]` nothing is strictly below
or above the mean, so both strikes are 0 and the bound `0 + 0 ≤ 2` holds. -/
theorem C8_strikes_witness :
    longest_strike_below_mean [1, 1] + longest_strike_above_mean [1, 1] ≤ 2 ∧
      longest_strike_below_mean [1, 1] = 0 ∧
      longest_strike_above_mean [1, 1] = 0 := by
  have hmean : mean [1, 1] = 1 := by norm_num [mean]
  have hbelow : ∀ v ∈ ([1, 1] : List ℚ), ¬ v < mean [1, 1] := by
    intro v hv
    rw [hmean]
    have hv1 : v = 1 := by simpa using hv
    simp [hv1]
  have habove : ∀ v ∈ ([1, 1] : List ℚ), ¬ mean [1, 1] < v := by
    intro v hv
    rw [hmean]
    have hv1 : v = 1 := by simpa using hv
    simp [hv1]
  exact ⟨(C8_longest_strikes [1, 1]).1,
    (C8_longest_strikes [1, 1]).2.2.1 hbelow,
    (C8_longest_strikes [1, 1]).2.2.2 habove⟩

theorem countP_le_ge_split (x : List ℚ) (t : ℚ) :
    x.countP (fun v => decide (v ≤ t)) + x.countP (fun v => decide (t ≤ v)) =
      x.length + x.countP (fun v => decide (v = t)) := by
  induction x with
  | nil => rfl
  | cons a rest ih =>
    simp only [List.countP_cons, List.length_cons]
    rcases lt_trichotomy a t with h | h | h
    · have h1 : decide (a ≤ t) = true := decide_eq_true h.le
      have h2 : decide (t ≤ a) = false := decide_eq_false (not_le.mpr h)
      have h3 : decide (a = t) = false := decide_eq_false h.ne
      simp only [h1, h2, h3, if_true, if_false]
      omega
    · have h1 : decide (a ≤ t) = true := decide_eq_true h.le
      have h2 : decide (t ≤ a) = true := decide_eq_true h.ge
      have h3 : decide (a = t) = true := decide_eq_true h
      simp only [h1, h2, h3, if_true]
      omega
    · have h1 : decide (a ≤ t) = false := decide_eq_false (not_le.mpr h)
      have h2 : decide (t ≤ a) = true := decide_eq_true h.le
      have h3 : decide (a = t) = false := decide_eq_false (ne_of_gt h)
      simp only [h1, h2, h3, if_true, if_false]
      omega

/-- C10. For every non-empty series and threshold, the two inclusive
percentages sum to at least 100, with equality exactly when no value
equals the threshold (values equal to `t` are counted by both). -/
theorem C10_count_below_above (x : List ℚ) (t : ℚ) (hx : x ≠ []) :
    100 ≤ count_below x t + count_above x t ∧
      (count_below x t + count_above x t = 100 ↔ ∀ v ∈ x, v ≠ t) := by
  have hpos : 0 < x.length := List.length_pos.mpr hx
  have hn : (x.length : ℚ) ≠ 0 := Nat.cast_ne_zero.mpr hpos.ne'
  have hkey := countP_le_ge_split x t
  have hcast : ((x.countP (fun v => decide (v ≤ t)) : ℚ) +
      (x.countP (fun v => decide (t ≤ v)) : ℚ)) =
      (x.length : ℚ) + (x.countP (fun v => decide (v = t)) : ℚ) := by
    exact_mod_cast hkey
  have hfb : (x.filter (fun v => decide (v ≤ t))).length =
      x.countP (fun v => decide (v ≤ t)) := by
    rw [List.countP_eq_length_filter]
  have hfa : (x.filter (fun v => decide (t ≤ v))).length =
      x.countP (fun v => decide (t ≤ v)) := by
    rw [List.countP_eq_length_filter]
  have hsum : count_below x t + count_above x t =
      100 + 100 * (x.countP (fun v => decide (v = t)) : ℚ) / x.length := by
    rw [count_below, count_above, hfb, hfa]
    field_simp
    linear_combination (100 : ℚ) * hcast
  constructor
  · rw [hsum]
    have h0 : 0 ≤ 100 * (x.countP (fun v => decide (v = t)) : ℚ) / x.length := by
      positivity
    linarith
  · rw [hsum]
    constructor
    · intro h
      have h2 : 100 * (x.countP (fun v => decide (v = t)) : ℚ) / x.length = 0 := by
        linarith
      have h5 : 100 * (x.countP (fun v => decide (v = t)) : ℚ) = 0 := by
        rcases div_eq_zero_iff.mp h2 with h5 | h5
        · exact h5
        · exact absurd h5 hn
      have h6 : (x.countP (fun v => decide (v = t)) : ℚ) = 0 := by linarith
      have h4 : x.countP (fun v => decide (v = t)) = 0 := by exact_mod_cast h6
      intro v hv
      have h5 := List.countP_eq_zero.mp h4 v hv
      simpa using h5
    · intro h
      have h4 : x.countP (fun v => decide (v = t)) = 0 :=
        List.countP_eq_zero.mpr (fun v hv => by simpa using h v hv)
      rw [h4]
      norm_num

/-- C10 witness: the series `[1, 2]` with threshold 0, which no element
equals, so the two percentages sum to exactly 100. -/
theorem C10_count_witness :
    100 ≤ count_below [1, 2] 0 + count_above [1, 2] 0 ∧
      (count_below [1, 2] 0 + count_above [1, 2] 0 = 100 ↔
        ∀ v ∈ ([1, 2] : List ℚ), v ≠ 0) :=
  ⟨(C10_count_below_above [1, 2] 0 (by decide)).1,
    (C10_count_below_above [1, 2] 0 (by decide)).2⟩

/-- C9. Fitting and then transforming the same fit input (`X_reduced`
after `fit`) yields exactly the matrix `fit_transform` returns on
identical input, for any model and any `target_dim` within
`min(rows, cols)` of the feature matrix. -/
theorem C9_fit_transform_roundtrip {State : Type} (m : ReducerModel State)
    (X : List (List ℚ)) (dim : ℕ)
    (hdim : dim ≤ min (numRows (dropIdColumn (m.calculate_features X)))
        (numCols (dropIdColumn (m.calculate_features X)))) :
    X_reduced m (fit m X dim) = fit_transform m X dim := rfl

/-- C9 witness: the round trip at a concrete model and panel, with
`dim = 1 ≤ min(2, 1)`. -/
theorem C9_roundtrip_witness :
    1 ≤ min (numRows (dropIdColumn (demoModel.calculate_features [[1, 2], [3, 4]])))
        (numCols (dropIdColumn (demoModel.calculate_features [[1, 2], [3, 4]]))) ∧
      X_reduced demoModel (fit demoModel [[1, 2], [3, 4]] 1) =
        fit_transform demoModel [[1, 2], [3, 4]] 1 :=
  ⟨by norm_num [demoModel, dropIdColumn, numRows, numCols],
    C9_fit_transform_roundtrip demoModel [[1, 2], [3, 4]] 1
      (by norm_num [demoModel, dropIdColumn, numRows, numCols])⟩

end Functime
